import Mathlib

/-!
Verification of the udevd event/worker scheduler (src/udev/udevd.c, src/udev/udev.h).

Shallow embedding: the data model and the scheduler operations are translated from
the C source into executable Lean definitions; stateful code becomes explicit state
passing or an inductive step relation; machine integers are Nat/Int with explicit
`% 2^w` where overflow matters.
-/

namespace Udevd

/-- `enum event_state` from udevd.c (EVENT_UNDEF is only used as a cleanup
filter wildcard and is not a state a queued event can carry, so the queue
model uses the two real states). -/
inductive EventState where
  | queued
  | running
deriving DecidableEq

/-- `struct event` from udevd.c, restricted to the fields the scheduler reads:
seqnum, the cached devpath (as a byte list; `devpath_len` is `devpath.length`),
the optional devpath_old, the devnum split into major/minor, the ifindex
(a C `int`, modelled as ℤ since the code tests `> 0`), the is_block flag,
the event state and the cached `delaying_seqnum`. -/
structure Event where
  seqnum : ℕ
  devpath : List Char
  devpath_old : Option (List Char)
  devnum_major : ℕ
  devnum_minor : ℕ
  ifindex : ℤ
  is_block : Bool
  state : EventState
  delaying_seqnum : ℕ
deriving DecidableEq

/-- Verdict of one iteration of the `LIST_FOREACH` loop in `is_devpath_busy`
(udevd.c:629-691): `next` = `continue`, `busyKeep` = `return true` without
touching `delaying_seqnum`, `busyCache` = `event->delaying_seqnum =
loop_event->seqnum; return true`, `stop` = `break` (then `return false`). -/
inductive BusyStep where
  | next
  | busyKeep
  | busyCache
  | stop
deriving DecidableEq

/-- One iteration of the loop body of `is_devpath_busy` (udevd.c:634-688),
checking the queued/running `le` (`loop_event`) against `e` (`event`):
the skip/blocker/break seqnum checks, then major/minor, ifindex,
devpath_old, and the devpath comparison.  `e.devpath.get? common` models
reading `event->devpath[common]`, which for `common = strlen(devpath)` reads
the NUL terminator (never equal to '/'), matching `get? = none`. -/
def checkOne (e le : Event) : BusyStep :=
  if le.seqnum < e.delaying_seqnum then .next
  else if le.seqnum = e.delaying_seqnum then .busyKeep
  else if e.seqnum ≤ le.seqnum then .stop
  else if e.devnum_major ≠ 0 ∧ e.devnum_major = le.devnum_major ∧
          e.devnum_minor = le.devnum_minor ∧ e.is_block = le.is_block then .busyKeep
  else if 0 < e.ifindex ∧ e.ifindex = le.ifindex then .busyKeep
  else if e.devpath_old = some le.devpath then .busyCache
  -- below, `min le.devpath.length e.devpath.length` is the C variable `common`
  else if le.devpath.take (min le.devpath.length e.devpath.length) ≠
          e.devpath.take (min le.devpath.length e.devpath.length) then .next
  else if le.devpath.length = e.devpath.length then
    if e.devnum_major ≠ 0 ∨ 0 < e.ifindex then .next else .busyCache
  else if e.devpath.get? (min le.devpath.length e.devpath.length) = some '/' then .busyCache
  else if le.devpath.get? (min le.devpath.length e.devpath.length) = some '/' then .busyCache
  else .next

/-- The loop of `is_devpath_busy` over the (suffix of the) queue, returning the
busy verdict together with the final value of `event->delaying_seqnum`
(the C function mutates the field and returns `bool`; we pass the state
explicitly; within one call the comparisons use the entry value, because the
code returns immediately whenever it writes the field). -/
def busyAux (e : Event) : List Event → Bool × ℕ
  | [] => (false, e.delaying_seqnum)
  | le :: rest =>
    match checkOne e le with
    | .next => busyAux e rest
    | .busyKeep => (true, e.delaying_seqnum)
    | .busyCache => (true, le.seqnum)
    | .stop => (false, e.delaying_seqnum)

/-- `is_devpath_busy(manager, event)` (udevd.c:629-691): scan the whole event
queue in insertion order. -/
def is_devpath_busy (queue : List Event) (e : Event) : Bool × ℕ :=
  busyAux e queue

/-- The 7-step reference busy predicate, written from the words of the spec
(spec §4.1 "Busy predicate"): iterate the queue in insertion order; (1) skip
`other` with `other.seqnum < e.delaying_seqnum`; (2) busy when
`other.seqnum == e.delaying_seqnum`; (3) break not-busy at
`other.seqnum ≥ e.seqnum`; (4) busy on same device node; (5) busy on same
network interface; (6) busy on `e.devpath_old == other.devpath`, caching;
(7) with `common = min(len(e.devpath), len(other.devpath))`: continue when
the prefixes differ; on equal length, identical path: busy and cache unless
`e` has a devnum or ifindex (then continue); `e.devpath[common]=='/'` →
child, busy and cache; `other.devpath[common]=='/'` → parent, busy and
cache.  Used only to compare against `is_devpath_busy` as embedded from the
source. -/
def specBusy (e : Event) : List Event → Bool × ℕ
  | [] => (false, e.delaying_seqnum)
  | other :: rest =>
    if other.seqnum < e.delaying_seqnum then specBusy e rest
    else if other.seqnum = e.delaying_seqnum then (true, e.delaying_seqnum)
    else if e.seqnum ≤ other.seqnum then (false, e.delaying_seqnum)
    else if e.devnum_major ≠ 0 ∧
            (e.devnum_major, e.devnum_minor) = (other.devnum_major, other.devnum_minor) ∧
            e.is_block = other.is_block then (true, e.delaying_seqnum)
    else if 0 < e.ifindex ∧ e.ifindex = other.ifindex then (true, e.delaying_seqnum)
    else if e.devpath_old = some other.devpath then (true, other.seqnum)
    -- step 7; `min e.devpath.length other.devpath.length` is the spec's `common`
    else if e.devpath.take (min e.devpath.length other.devpath.length) =
            other.devpath.take (min e.devpath.length other.devpath.length) then
      if e.devpath.length = other.devpath.length then
        if e.devnum_major ≠ 0 ∨ 0 < e.ifindex then specBusy e rest
        else (true, other.seqnum)
      else if e.devpath.get? (min e.devpath.length other.devpath.length) = some '/' then
        (true, other.seqnum)
      else if other.devpath.get? (min e.devpath.length other.devpath.length) = some '/' then
        (true, other.seqnum)
      else specBusy e rest
    else specBusy e rest

/-! ## The manager's queue as a transition system

The supervisor loop mutates the queue only through `event_queue_insert`
(udevd.c:568-611), the busy check plus `event_run` inside
`event_queue_start` (udevd.c:768-812), and `event_free` (completion in
`on_worker`, udevd.c:888, or cleanup in `event_queue_cleanup`,
udevd.c:814-823).  `maxSeq` is a ghost upper bound on every seqnum that has
ever been inserted: the kernel hands out strictly increasing seqnums
(spec §3: "monotonically increasing seqnum, unique across the process
lifetime"), which `is_devpath_busy` relies on when it breaks at
`loop_event->seqnum >= event->seqnum`. -/
structure MState where
  queue : List Event
  maxSeq : ℕ
deriving DecidableEq

/-- One supervisor-loop mutation of the event queue.
  * `insert`: `event_queue_insert` appends a QUEUED event with
    `delaying_seqnum = 0` (`new0`) and a fresh, strictly larger seqnum.
  * `checkBusy`: `event_queue_start` evaluates `is_devpath_busy` on a QUEUED
    event; a busy verdict leaves it queued with the updated
    `delaying_seqnum`.
  * `start`: a not-busy QUEUED event is handed to `event_run` and a worker
    accepts it: `worker_attach_event` sets `EVENT_RUNNING`
    (`delaying_seqnum` is only written inside `is_devpath_busy`, which
    leaves it unchanged on a not-busy verdict).
  * `remove`: `event_free` unlinks the event (worker completion frees a
    RUNNING event, `event_queue_cleanup` can free others). -/
inductive Step : MState → MState → Prop where
  | insert (q : List Event) (m : ℕ) (e : Event) :
      m < e.seqnum → e.state = .queued → e.delaying_seqnum = 0 →
      Step ⟨q, m⟩ ⟨q ++ [e], e.seqnum⟩
  | checkBusy (pre post : List Event) (m : ℕ) (e : Event) :
      e.state = .queued →
      (is_devpath_busy (pre ++ e :: post) e).1 = true →
      Step ⟨pre ++ e :: post, m⟩
           ⟨pre ++ { e with delaying_seqnum := (is_devpath_busy (pre ++ e :: post) e).2 } :: post, m⟩
  | start (pre post : List Event) (m : ℕ) (e : Event) :
      e.state = .queued →
      (is_devpath_busy (pre ++ e :: post) e).1 = false →
      Step ⟨pre ++ e :: post, m⟩ ⟨pre ++ { e with state := .running } :: post, m⟩
  | remove (pre post : List Event) (m : ℕ) (e : Event) :
      Step ⟨pre ++ e :: post, m⟩ ⟨pre ++ post, m⟩

/-- The manager starts with an empty queue. -/
def initState : MState := ⟨[], 0⟩

/-- Queue states reachable by the supervisor loop. -/
def Reach (s : MState) : Prop := Relation.ReflTransGen Step initState s

/-! ## Properties of one loop iteration of `is_devpath_busy` -/

set_option maxHeartbeats 1000000 in
set_option linter.unnecessarySeqFocus false in
/-- The loop only breaks (`stop`) at an event with `seqnum >= event->seqnum`. -/
lemma checkOne_stop {e le : Event} (h : checkOne e le = .stop) :
    e.seqnum ≤ le.seqnum := by
  unfold checkOne at h
  split_ifs at h <;> simp_all

set_option maxHeartbeats 1000000 in
/-- Whenever the loop writes `delaying_seqnum` it stores the seqnum of an
event strictly between the old cached value and `event->seqnum`. -/
lemma checkOne_busyCache_bounds {e le : Event} (h : checkOne e le = .busyCache) :
    e.delaying_seqnum < le.seqnum ∧ le.seqnum < e.seqnum := by
  unfold checkOne at h
  split_ifs at h <;> simp_all <;> omega

/-- `a` is a proper sysfs ancestor of `b`: `a` is a byte-wise proper initial
segment of `b` and the next byte of `b` is '/'.  This is exactly the
parent/child case of the devpath comparison in `is_devpath_busy`. -/
def devpathAncestor (a b : List Char) : Prop :=
  a.length < b.length ∧ b.take a.length = a ∧ b.get? a.length = some '/'

instance (a b : List Char) : Decidable (devpathAncestor a b) := by
  unfold devpathAncestor; infer_instance

/-- The relation between an earlier event `e1` and a later event `e2` under
which the scheduler serializes them (the amended statement of claim C1):
same device node, same positive ifindex, devpaths in a proper parent/child
relation, or identical devpaths with `e2` carrying no device identity
(no devnum major, no positive ifindex).  The identical-devpath case with a
device identity is deliberately excluded: `is_devpath_busy` defers it
("devices names might have changed/swapped in the meantime",
udevd.c:669-672). -/
def Rel (e1 e2 : Event) : Prop :=
  (e2.devnum_major ≠ 0 ∧ e2.devnum_major = e1.devnum_major ∧
   e2.devnum_minor = e1.devnum_minor ∧ e2.is_block = e1.is_block)
  ∨ (0 < e2.ifindex ∧ e2.ifindex = e1.ifindex)
  ∨ devpathAncestor e1.devpath e2.devpath
  ∨ devpathAncestor e2.devpath e1.devpath
  ∨ (e1.devpath = e2.devpath ∧ e2.devnum_major = 0 ∧ e2.ifindex ≤ 0)

instance (e1 e2 : Event) : Decidable (Rel e1 e2) := by
  unfold Rel; infer_instance

set_option maxHeartbeats 1000000 in
/-- An earlier event related to `e` by `Rel` makes this loop iteration
return busy (with or without caching). -/
lemma checkOne_rel {e1 e : Event} (hrel : Rel e1 e) (hlt : e1.seqnum < e.seqnum)
    (hdel : e.delaying_seqnum ≤ e1.seqnum) :
    checkOne e e1 = .busyKeep ∨ checkOne e e1 = .busyCache := by
  unfold checkOne
  split_ifs with h1 h2 h3 h4 h5 h6 h7 h8 h9 h10 h11
  · omega
  · exact Or.inl rfl
  · omega
  · exact Or.inl rfl
  · exact Or.inl rfl
  · exact Or.inr rfl
  · -- the byte prefixes differ over `common`: contradicts every clause of Rel
    exfalso
    rcases hrel with hd | hi | ha | ha | hid
    · exact h4 hd
    · exact h5 hi
    · rcases ha with ⟨hl, ht, _⟩
      apply h7
      rw [min_eq_left (le_of_lt hl), List.take_length, ht]
    · rcases ha with ⟨hl, ht, _⟩
      apply h7
      rw [min_eq_right (le_of_lt hl), List.take_length, ht]
    · rcases hid with ⟨hp, _, _⟩
      apply h7
      rw [hp]
  · -- identical devpath and `e` has a device identity: contradicts Rel
    exfalso
    rcases hrel with hd | hi | ha | ha | hid
    · exact h4 hd
    · exact h5 hi
    · rcases ha with ⟨hl, _, _⟩; omega
    · rcases ha with ⟨hl, _, _⟩; omega
    · rcases h9 with h9 | h9
      · exact h9 hid.2.1
      · omega
  · exact Or.inr rfl
  · exact Or.inr rfl
  · exact Or.inr rfl
  · -- lengths differ, neither continuation byte is '/': contradicts Rel
    exfalso
    rcases hrel with hd | hi | ha | ha | hid
    · exact h4 hd
    · exact h5 hi
    · rcases ha with ⟨hl, _, hg⟩
      apply h10
      rw [min_eq_left (le_of_lt hl)]
      exact hg
    · rcases ha with ⟨hl, _, hg⟩
      apply h11
      rw [min_eq_right (le_of_lt hl)]
      exact hg
    · exact h8 (congrArg List.length hid.1)

/-- Key lemma: if some earlier event `e1` related to `e` is still in the
queue (which is sorted by seqnum) and the cached `delaying_seqnum` does not
exceed `e1.seqnum`, then the scan reports busy and the updated cache still
does not exceed `e1.seqnum`. -/
lemma busyAux_rel_busy {e e1 : Event} :
    ∀ q : List Event, q.Pairwise (fun a b => a.seqnum < b.seqnum) →
      e1 ∈ q → e1.seqnum < e.seqnum → Rel e1 e → e.delaying_seqnum ≤ e1.seqnum →
      (busyAux e q).1 = true ∧ (busyAux e q).2 ≤ e1.seqnum := by
  intro q
  induction q with
  | nil => intro _ hmem; cases hmem
  | cons a rest ih =>
    intro hpw hmem hlt hrel hdel
    rcases List.pairwise_cons.1 hpw with ⟨ha, hrest⟩
    rcases List.mem_cons.1 hmem with heq | hmem
    · subst heq
      rcases checkOne_rel hrel hlt hdel with hc | hc <;> simp [busyAux, hc, hdel]
    · have haseq : a.seqnum < e1.seqnum := ha e1 hmem
      rcases hc : checkOne e a with _ | _ | _ | _
      · simpa [busyAux, hc] using ih hrest hmem hlt hrel hdel
      · simp [busyAux, hc, hdel]
      · simp [busyAux, hc]
        omega
      · exact absurd (checkOne_stop hc) (by omega)

/-- The cached `delaying_seqnum` never decreases across one call of
`is_devpath_busy`. -/
lemma busyAux_delay_ge (e : Event) :
    ∀ q : List Event, e.delaying_seqnum ≤ (busyAux e q).2 := by
  intro q
  induction q with
  | nil => exact le_refl _
  | cons a rest ih =>
    rcases hc : checkOne e a with _ | _ | _ | _
    · simpa [busyAux, hc] using ih
    · simp [busyAux, hc]
    · simp only [busyAux, hc]
      exact le_of_lt (checkOne_busyCache_bounds hc).1
    · simp [busyAux, hc]

/-- The cached `delaying_seqnum` never exceeds the event's own seqnum across
one call of `is_devpath_busy` (given it did not on entry). -/
lemma busyAux_delay_le (e : Event) (h : e.delaying_seqnum ≤ e.seqnum) :
    ∀ q : List Event, (busyAux e q).2 ≤ e.seqnum := by
  intro q
  induction q with
  | nil => exact h
  | cons a rest ih =>
    rcases hc : checkOne e a with _ | _ | _ | _
    · simpa [busyAux, hc] using ih
    · simpa [busyAux, hc] using h
    · simp only [busyAux, hc]
      exact le_of_lt (checkOne_busyCache_bounds hc).2
    · simpa [busyAux, hc] using h

/-! ## Reachability invariants of the queue -/

/-- The queue is sorted by seqnum (insertion order = kernel seqnum order). -/
def SortedQ (s : MState) : Prop :=
  s.queue.Pairwise (fun a b => a.seqnum < b.seqnum)

/-- Every queued seqnum is bounded by the ghost `maxSeq`. -/
def SeqBound (s : MState) : Prop :=
  ∀ x ∈ s.queue, x.seqnum ≤ s.maxSeq

/-- `delaying_seqnum` never exceeds the event's own seqnum. -/
def DelayBound (s : MState) : Prop :=
  ∀ x ∈ s.queue, x.delaying_seqnum ≤ x.seqnum

/-- The scheduler's per-device ordering invariant: while an earlier related
event is still in the queue, the later one has not been started and its
cached blocker seqnum does not reach past the earlier event. -/
def OrderInv (s : MState) : Prop :=
  ∀ e1 ∈ s.queue, ∀ e2 ∈ s.queue, e1.seqnum < e2.seqnum → Rel e1 e2 →
    e2.state = EventState.queued ∧ e2.delaying_seqnum ≤ e1.seqnum

def Inv (s : MState) : Prop := SortedQ s ∧ SeqBound s ∧ DelayBound s ∧ OrderInv s

lemma mem_mid {pre post : List Event} {e x : Event} (h : x ∈ pre ++ post) :
    x ∈ pre ++ e :: post := by
  rcases List.mem_append.1 h with h | h
  · exact List.mem_append_left _ h
  · exact List.mem_append_right _ (List.mem_cons_of_mem _ h)

lemma mem_mid_self (pre post : List Event) (e : Event) : e ∈ pre ++ e :: post :=
  List.mem_append_right _ (List.mem_cons_self _ _)

lemma mem_mid_cases {pre post : List Event} {e' x : Event} (h : x ∈ pre ++ e' :: post) :
    x = e' ∨ x ∈ pre ++ post := by
  rcases List.mem_append.1 h with h | h
  · exact Or.inr (List.mem_append_left _ h)
  · rcases List.mem_cons.1 h with h | h
    · exact Or.inl h
    · exact Or.inr (List.mem_append_right _ h)

/-- Replacing an element by one with the same seqnum preserves sortedness. -/
lemma sorted_replace {pre post : List Event} (e : Event) {e' : Event} (hseq : e'.seqnum = e.seqnum)
    (h : (pre ++ e :: post).Pairwise (fun a b => a.seqnum < b.seqnum)) :
    (pre ++ e' :: post).Pairwise (fun a b => a.seqnum < b.seqnum) := by
  rw [List.pairwise_append] at h ⊢
  rcases h with ⟨hpre, hpost, hcross⟩
  rw [List.pairwise_cons] at hpost ⊢
  refine ⟨hpre, ⟨fun b hb => ?_, hpost.2⟩, fun a ha b hb => ?_⟩
  · rw [hseq]; exact hpost.1 b hb
  · rcases List.mem_cons.1 hb with rfl | hb
    · rw [hseq]; exact hcross a ha e (List.mem_cons_self _ _)
    · exact hcross a ha b (List.mem_cons_of_mem _ hb)

/-- In a seqnum-sorted queue, the seqnum determines the event. -/
lemma sorted_seq_inj {q : List Event} (h : q.Pairwise (fun a b => a.seqnum < b.seqnum)) :
    ∀ {a b : Event}, a ∈ q → b ∈ q → a.seqnum = b.seqnum → a = b := by
  induction q with
  | nil => intro a b ha; cases ha
  | cons x rest ih =>
    intro a b ha hb hs
    rcases List.pairwise_cons.1 h with ⟨hx, hrest⟩
    rcases List.mem_cons.1 ha with h1 | h1
    · rcases List.mem_cons.1 hb with h2 | h2
      · rw [h1, h2]
      · subst h1; exact absurd (hx b h2) (by omega)
    · rcases List.mem_cons.1 hb with h2 | h2
      · subst h2; exact absurd (hx a h1) (by omega)
      · exact ih hrest h1 h2 hs

/-- Every supervisor-loop step preserves the invariant bundle. -/
lemma inv_step {s s' : MState} (hinv : Inv s) (hstep : Step s s') : Inv s' := by
  cases hstep with
  | insert q m e hm hq hd =>
    obtain ⟨hsort, hbound, hdelay, horder⟩ := hinv
    dsimp only [Inv, SortedQ, SeqBound, DelayBound, OrderInv] at hsort hbound hdelay horder ⊢
    refine ⟨?_, ?_, ?_, ?_⟩
    · rw [List.pairwise_append]
      refine ⟨hsort, List.pairwise_singleton _ _, fun a ha b hb => ?_⟩
      rcases List.mem_singleton.1 hb with rfl
      exact lt_of_le_of_lt (hbound a ha) hm
    · intro x hx
      rcases List.mem_append.1 hx with hx | hx
      · exact le_of_lt (lt_of_le_of_lt (hbound x hx) hm)
      · rcases List.mem_singleton.1 hx with rfl; exact le_refl _
    · intro x hx
      rcases List.mem_append.1 hx with hx | hx
      · exact hdelay x hx
      · rcases List.mem_singleton.1 hx with rfl; rw [hd]; exact Nat.zero_le _
    · intro e1 h1 e2 h2 hlt hrel
      rcases List.mem_append.1 h2 with hm2 | hm2
      · rcases List.mem_append.1 h1 with hm1 | hm1
        · exact horder e1 hm1 e2 hm2 hlt hrel
        · have he1 : e1 = e := List.mem_singleton.1 hm1
          have hb2 : e2.seqnum ≤ m := hbound e2 hm2
          rw [he1] at hlt
          omega
      · have he2 : e2 = e := List.mem_singleton.1 hm2
        rw [he2]
        exact ⟨hq, by rw [hd]; exact Nat.zero_le _⟩
  | checkBusy pre post m e hq hb =>
    obtain ⟨hsort, hbound, hdelay, horder⟩ := hinv
    dsimp only [Inv, SortedQ, SeqBound, DelayBound, OrderInv] at hsort hbound hdelay horder ⊢
    have hmem := mem_mid_self pre post e
    refine ⟨sorted_replace e rfl hsort, ?_, ?_, ?_⟩
    · intro x hx
      rcases mem_mid_cases hx with rfl | hx
      · exact hbound e hmem
      · exact hbound x (mem_mid hx)
    · intro x hx
      rcases mem_mid_cases hx with rfl | hx
      · exact busyAux_delay_le e (hdelay e hmem) _
      · exact hdelay x (mem_mid hx)
    · intro e1 h1 e2 h2 hlt hrel
      rcases mem_mid_cases h2 with rfl | h2
      · rcases mem_mid_cases h1 with rfl | h1
        · exact absurd hlt (by omega)
        · have h1' : e1 ∈ pre ++ e :: post := mem_mid h1
          have hlt' : e1.seqnum < e.seqnum := hlt
          have hrel' : Rel e1 e := hrel
          have hde : e.delaying_seqnum ≤ e1.seqnum :=
            (horder e1 h1' e hmem hlt' hrel').2
          have hbusy : (busyAux e (pre ++ e :: post)).1 = true ∧
              (busyAux e (pre ++ e :: post)).2 ≤ e1.seqnum :=
            busyAux_rel_busy _ hsort h1' hlt' hrel' hde
          exact ⟨hq, hbusy.2⟩
      · rcases mem_mid_cases h1 with rfl | h1
        · have hlt' : e.seqnum < e2.seqnum := hlt
          have hrel' : Rel e e2 := hrel
          exact horder e hmem e2 (mem_mid h2) hlt' hrel'
        · exact horder e1 (mem_mid h1) e2 (mem_mid h2) hlt hrel
  | start pre post m e hq hb =>
    obtain ⟨hsort, hbound, hdelay, horder⟩ := hinv
    dsimp only [Inv, SortedQ, SeqBound, DelayBound, OrderInv] at hsort hbound hdelay horder ⊢
    have hmem := mem_mid_self pre post e
    refine ⟨sorted_replace e rfl hsort, ?_, ?_, ?_⟩
    · intro x hx
      rcases mem_mid_cases hx with rfl | hx
      · exact hbound e hmem
      · exact hbound x (mem_mid hx)
    · intro x hx
      rcases mem_mid_cases hx with rfl | hx
      · exact hdelay e hmem
      · exact hdelay x (mem_mid hx)
    · intro e1 h1 e2 h2 hlt hrel
      rcases mem_mid_cases h2 with rfl | h2
      · rcases mem_mid_cases h1 with rfl | h1
        · exact absurd hlt (by omega)
        · exfalso
          have h1' : e1 ∈ pre ++ e :: post := mem_mid h1
          have hlt' : e1.seqnum < e.seqnum := hlt
          have hrel' : Rel e1 e := hrel
          have hde : e.delaying_seqnum ≤ e1.seqnum :=
            (horder e1 h1' e hmem hlt' hrel').2
          have htrue : (busyAux e (pre ++ e :: post)).1 = true :=
            (busyAux_rel_busy _ hsort h1' hlt' hrel' hde).1
          rw [is_devpath_busy] at hb
          rw [htrue] at hb
          exact Bool.noConfusion hb
      · rcases mem_mid_cases h1 with rfl | h1
        · have hlt' : e.seqnum < e2.seqnum := hlt
          have hrel' : Rel e e2 := hrel
          exact horder e hmem e2 (mem_mid h2) hlt' hrel'
        · exact horder e1 (mem_mid h1) e2 (mem_mid h2) hlt hrel
  | remove pre post m e =>
    obtain ⟨hsort, hbound, hdelay, horder⟩ := hinv
    dsimp only [Inv, SortedQ, SeqBound, DelayBound, OrderInv] at hsort hbound hdelay horder ⊢
    refine ⟨?_, ?_, ?_, ?_⟩
    · refine List.Pairwise.sublist ?_ hsort
      exact List.Sublist.append_left (List.sublist_cons_self e post) pre
    · intro x hx; exact hbound x (mem_mid hx)
    · intro x hx; exact hdelay x (mem_mid hx)
    · intro e1 h1 e2 h2 hlt hrel
      exact horder e1 (mem_mid h1) e2 (mem_mid h2) hlt hrel

lemma inv_init : Inv initState := by
  dsimp only [Inv, SortedQ, SeqBound, DelayBound, OrderInv, initState]
  refine ⟨List.Pairwise.nil, ?_, ?_, ?_⟩
  · intro x hx; cases hx
  · intro x hx; cases hx
  · intro e1 h1; cases h1

/-- Every reachable queue state satisfies the invariant bundle. -/
lemma inv_reachable {s : MState} (h : Reach s) : Inv s := by
  induction h with
  | refl => exact inv_init
  | tail _ hstep ih => exact inv_step ih hstep

/-! ## Tracking `delaying_seqnum` across steps (for claim C8) -/

lemma step_maxSeq_mono {s s' : MState} (h : Step s s') : s.maxSeq ≤ s'.maxSeq := by
  cases h with
  | insert q m e hm _ _ => exact le_of_lt hm
  | checkBusy pre post m e _ _ => exact le_refl _
  | start pre post m e _ _ => exact le_refl _
  | remove pre post m e => exact le_refl _

lemma rtg_maxSeq_mono {s s' : MState} (h : Relation.ReflTransGen Step s s') :
    s.maxSeq ≤ s'.maxSeq := by
  induction h with
  | refl => exact le_refl _
  | tail _ hstep ih => exact le_trans ih (step_maxSeq_mono hstep)

/-- Across one step, every event of the new queue either descends from an
event of the old queue with the same seqnum and a `delaying_seqnum` that has
not decreased, or is freshly inserted (seqnum above the old ghost bound). -/
lemma step_delay_back {s s' : MState} (hstep : Step s s') {e' : Event}
    (he' : e' ∈ s'.queue) :
    (∃ em ∈ s.queue, em.seqnum = e'.seqnum ∧
      em.delaying_seqnum ≤ e'.delaying_seqnum) ∨
    s.maxSeq < e'.seqnum := by
  cases hstep with
  | insert q m e hm hq hd =>
    rcases List.mem_append.1 he' with h | h
    · exact Or.inl ⟨e', h, rfl, le_refl _⟩
    · rcases List.mem_singleton.1 h with rfl
      exact Or.inr hm
  | checkBusy pre post m e hq hb =>
    rcases mem_mid_cases he' with rfl | h
    · exact Or.inl ⟨e, mem_mid_self pre post e, rfl, busyAux_delay_ge e _⟩
    · exact Or.inl ⟨e', mem_mid h, rfl, le_refl _⟩
  | start pre post m e hq hb =>
    rcases mem_mid_cases he' with rfl | h
    · exact Or.inl ⟨e, mem_mid_self pre post e, rfl, le_refl _⟩
    · exact Or.inl ⟨e', mem_mid h, rfl, le_refl _⟩
  | remove pre post m e =>
    exact Or.inl ⟨e', mem_mid he', rfl, le_refl _⟩

/-- Along any run of the supervisor loop, the `delaying_seqnum` of the event
with a given seqnum never decreases. -/
lemma delay_mono_rtg {s s' : MState} (hreach : Reach s)
    (h : Relation.ReflTransGen Step s s') {e : Event} (he : e ∈ s.queue) :
    ∀ e' ∈ s'.queue, e.seqnum = e'.seqnum →
      e.delaying_seqnum ≤ e'.delaying_seqnum := by
  induction h with
  | refl =>
    intro e' he' hseq
    have hsort : SortedQ s := (inv_reachable hreach).1
    have heq : e = e' := sorted_seq_inj hsort he he' hseq
    rw [heq]
  | tail hrt hstep ih =>
    intro e' he' hseq
    rcases step_delay_back hstep he' with ⟨em, hm, hs2, hd2⟩ | hmax
    · exact le_trans (ih em hm (by omega)) hd2
    · have h1 : e.seqnum ≤ s.maxSeq := (inv_reachable hreach).2.1 e he
      have h2 := rtg_maxSeq_mono hrt
      omega

/-! ## The claims about the queue -/

/-- Claim C1 (amended).  For any two events in the manager's queue related
by `Rel` — same device node (equal devnum with nonzero major and equal
is_block), same positive ifindex, devpaths in a proper parent/child
relation, or identical devpaths with the later event carrying no device
identity — if `e1.seqnum < e2.seqnum` then, in every reachable state in
which both are present, `e2` is still `EVENT_QUEUED`: the dispatcher never
started `e2` while `e1` was pending, so `e1` enters RUNNING no later than
`e2`.  (The claim as frozen also covers identical devpaths when the later
event has a devnum or ifindex; the code deliberately defers that case and
the counterexample below refutes it.) -/
theorem claim_C1_per_device_serialization {s : MState} (hreach : Reach s)
    (e1 e2 : Event) (h1 : e1 ∈ s.queue) (h2 : e2 ∈ s.queue)
    (hlt : e1.seqnum < e2.seqnum) (hrel : Rel e1 e2) :
    e2.state = EventState.queued := by
  have horder : OrderInv s := (inv_reachable hreach).2.2.2
  exact (horder e1 h1 e2 h2 hlt hrel).1

/-- Events used by the witness of claim C1: same block device node
(devnum 8:0), seqnums 1 and 2. -/
def wv1 : Event := ⟨1, "/w".toList, none, 8, 0, 0, true, .queued, 0⟩

def wv2 : Event := ⟨2, "/w".toList, none, 8, 0, 0, true, .queued, 0⟩

lemma wv_reach : Reach ⟨[wv1, wv2], 2⟩ :=
  Relation.ReflTransGen.tail
    (Relation.ReflTransGen.tail Relation.ReflTransGen.refl
      (Step.insert [] 0 wv1 (by decide) rfl rfl))
    (Step.insert [wv1] 1 wv2 (by decide) rfl rfl)

/-- Witness for claim C1: in the reachable state holding the two related
events `wv1`, `wv2`, the later one is still queued. -/
theorem claim_C1_per_device_serialization_witness :
    wv2.state = EventState.queued :=
  claim_C1_per_device_serialization wv_reach wv1 wv2
    (by decide) (by decide) (by decide) (by decide)

/-- Counterexample events: identical devpaths, distinct positive ifindexes,
no devnum. -/
def ce1 : Event := ⟨1, "/a/b".toList, none, 0, 0, 5, false, .running, 0⟩

def ce1q : Event := ⟨1, "/a/b".toList, none, 0, 0, 5, false, .queued, 0⟩

def ce2 : Event := ⟨2, "/a/b".toList, none, 0, 0, 7, false, .running, 0⟩

def ce2q : Event := ⟨2, "/a/b".toList, none, 0, 0, 7, false, .queued, 0⟩

/-- The trace follows the code exactly: uevent for `ce1` arrives and is
inserted, `event_queue_start` dispatches it (not busy), the uevent for
`ce2` arrives, and `event_queue_start` dispatches it too, because in
`is_devpath_busy` the identical-devpath comparison falls into the
"devices names might have changed/swapped" case (`ifindex > 0`) and
continues (udevd.c:669-672). -/
lemma ce_reach : Reach ⟨[ce1, ce2], 2⟩ :=
  Relation.ReflTransGen.tail
    (Relation.ReflTransGen.tail
      (Relation.ReflTransGen.tail
        (Relation.ReflTransGen.tail Relation.ReflTransGen.refl
          (Step.insert [] 0 ce1q (by decide) rfl rfl))
        (Step.start [] [] 1 ce1q rfl (by decide)))
      (Step.insert [ce1] 1 ce2q (by decide) rfl rfl))
    (Step.start [ce1] [] 2 ce2q rfl (by decide))

/-- Counterexample to claim C1 as frozen: the state with both `ce1` and
`ce2` RUNNING is reachable although their devpaths are identical (a prefix
relation) and `ce1.seqnum < ce2.seqnum` — the dispatcher starts `ce2`
while `ce1` is pending, because `ce2` has a positive ifindex and
`is_devpath_busy` defers identical-devpath events with a device
identity. -/
theorem claim_C1_counterexample :
    Reach ⟨[ce1, ce2], 2⟩ ∧ ce1.seqnum < ce2.seqnum ∧
    ce1.devpath = ce2.devpath ∧
    ce1.state = EventState.running ∧ ce2.state = EventState.running :=
  ⟨ce_reach, by decide, by decide, rfl, rfl⟩

set_option maxHeartbeats 2000000 in
/-- One unrolling of the spec's reference algorithm agrees with one
iteration of the source loop. -/
lemma specBusy_cons (e other : Event) (rest : List Event) :
    specBusy e (other :: rest) =
      match checkOne e other with
      | .next => specBusy e rest
      | .busyKeep => (true, e.delaying_seqnum)
      | .busyCache => (true, other.seqnum)
      | .stop => (false, e.delaying_seqnum) := by
  rw [specBusy, checkOne]
  rw [min_comm other.devpath.length e.devpath.length]
  by_cases h1 : other.seqnum < e.delaying_seqnum
  · simp only [if_pos h1]
  simp only [if_neg h1]
  by_cases h2 : other.seqnum = e.delaying_seqnum
  · simp only [if_pos h2]
  simp only [if_neg h2]
  by_cases h3 : e.seqnum ≤ other.seqnum
  · simp only [if_pos h3]
  simp only [if_neg h3]
  by_cases h4 : e.devnum_major ≠ 0 ∧ e.devnum_major = other.devnum_major ∧
      e.devnum_minor = other.devnum_minor ∧ e.is_block = other.is_block
  · rw [if_pos (show e.devnum_major ≠ 0 ∧
        (e.devnum_major, e.devnum_minor) = (other.devnum_major, other.devnum_minor) ∧
        e.is_block = other.is_block by
          simp only [Prod.mk.injEq]; tauto), if_pos h4]
  rw [if_neg (show ¬(e.devnum_major ≠ 0 ∧
        (e.devnum_major, e.devnum_minor) = (other.devnum_major, other.devnum_minor) ∧
        e.is_block = other.is_block) by
          simp only [Prod.mk.injEq]; tauto), if_neg h4]
  by_cases h5 : 0 < e.ifindex ∧ e.ifindex = other.ifindex
  · simp only [if_pos h5]
  simp only [if_neg h5]
  by_cases h6 : e.devpath_old = some other.devpath
  · simp only [if_pos h6]
  simp only [if_neg h6]
  by_cases h7 : e.devpath.take (min e.devpath.length other.devpath.length) =
      other.devpath.take (min e.devpath.length other.devpath.length)
  · rw [if_pos h7, if_neg (show ¬other.devpath.take (min e.devpath.length other.devpath.length) ≠
        e.devpath.take (min e.devpath.length other.devpath.length) from fun hne => hne h7.symm)]
    by_cases h8 : e.devpath.length = other.devpath.length
    · rw [if_pos h8, if_pos h8.symm]
      by_cases h9 : e.devnum_major ≠ 0 ∨ 0 < e.ifindex
      · simp only [if_pos h9]
      · simp only [if_neg h9]
    rw [if_neg h8, if_neg (show ¬(other.devpath.length = e.devpath.length) from
          fun hx => h8 hx.symm)]
    by_cases h10 : e.devpath.get? (min e.devpath.length other.devpath.length) = some '/'
    · simp only [if_pos h10]
    simp only [if_neg h10]
    by_cases h11 : other.devpath.get? (min e.devpath.length other.devpath.length) = some '/'
    · simp only [if_pos h11]
    simp only [if_neg h11]
  · rw [if_neg h7, if_pos (show other.devpath.take (min e.devpath.length other.devpath.length) ≠
        e.devpath.take (min e.devpath.length other.devpath.length) from fun heq => h7 heq.symm)]

/-- Claim C2 (confirmed).  `is_devpath_busy`, as embedded from the source,
computes exactly the 7-step reference algorithm of the spec (`specBusy`,
written from the spec's words), in verdict and in the cached
`delaying_seqnum`: queue iterated in insertion order; skip below
`delaying_seqnum`; busy at `delaying_seqnum`; break not-busy at or past
own seqnum; busy on same devnum (major nonzero, equal is_block) or same
positive ifindex without caching; busy with caching on `devpath_old`
collision and on devpath containment; and in the equal-length identical
devpath case, continue when the event has a nonzero devnum major or a
positive ifindex. -/
theorem claim_C2_busy_computes_spec_algorithm (e : Event) (q : List Event) :
    specBusy e q = is_devpath_busy q e := by
  induction q with
  | nil => rfl
  | cons other rest ih =>
    rw [is_devpath_busy] at ih ⊢
    rw [busyAux, specBusy_cons]
    rcases h : checkOne e other with _ | _ | _ | _
    · simp only [h]; exact ih
    · simp only [h]
    · simp only [h]
    · simp only [h]

/-- The event used by the witness of claim C8. -/
def c8e : Event := ⟨1, "/m".toList, none, 0, 0, 0, false, .queued, 0⟩

lemma c8_reach : Reach ⟨[c8e], 1⟩ :=
  Relation.ReflTransGen.tail Relation.ReflTransGen.refl
    (Step.insert [] 0 c8e (by decide) rfl rfl)

/-- Claim C8 (confirmed).  Over an event's whole lifetime in the queue —
across any run of the supervisor loop, hence across any sequence of
`is_devpath_busy` evaluations — its `delaying_seqnum` is monotone
non-decreasing and never exceeds its own seqnum: if the event with a given
seqnum occurs in a reachable state `s` and again after further steps in
`s'`, the cached value has not decreased and is bounded by the seqnum. -/
theorem claim_C8_delaying_monotone_bounded {s s' : MState} (hreach : Reach s)
    (hsteps : Relation.ReflTransGen Step s s') {e e' : Event}
    (he : e ∈ s.queue) (he' : e' ∈ s'.queue) (hseq : e.seqnum = e'.seqnum) :
    e.delaying_seqnum ≤ e'.delaying_seqnum ∧ e'.delaying_seqnum ≤ e'.seqnum := by
  constructor
  · exact delay_mono_rtg hreach hsteps he e' he' hseq
  · have hreach' : Reach s' := Relation.ReflTransGen.trans hreach hsteps
    exact (inv_reachable hreach').2.2.1 e' he'

/-- Witness for claim C8 at the reachable one-event state. -/
theorem claim_C8_delaying_monotone_bounded_witness :
    c8e.delaying_seqnum ≤ c8e.delaying_seqnum ∧
    c8e.delaying_seqnum ≤ c8e.seqnum :=
  claim_C8_delaying_monotone_bounded c8_reach Relation.ReflTransGen.refl
    (by decide) (by decide) rfl

/-! ## Worker pool: states, timers and lifecycle -/

/-- `enum worker_state` from udevd.c (WORKER_UNDEF exists only momentarily
inside `worker_new` before `worker_attach_event` runs; the lifecycle model
starts at the attached state). -/
inductive WState where
  | running
  | idle
  | killed
deriving DecidableEq

/-- `struct worker`, restricted to the fields the claims read: the state
and the attached event (identified by its seqnum; `none` models
`worker->event == NULL`). -/
structure WorkerRec where
  wstate : WState
  event : Option ℕ
deriving DecidableEq

/-- `on_event_timeout` (udevd.c:230-242): `kill_and_sigcont(pid, SIGKILL)`
(the returned flag) and `event->worker->state = WORKER_KILLED`; the
attached event is not freed — the reap path cleans up. -/
def on_event_timeout (w : WorkerRec) : WorkerRec × Bool :=
  ({ w with wstate := .killed }, true)

/-- `on_event_timeout_warning` (udevd.c:244-252): only logs; neither the
worker nor the event is touched and nothing is killed (flag false). -/
def on_event_timeout_warning (w : WorkerRec) : WorkerRec × Bool :=
  (w, false)

/-- `udev_warn_timeout` (udev.h:62-64): `DIV_ROUND_UP(timeout_usec, 3)`.
The macro body `(((x)+(y)-1)/(y))` lives in the repository's `macro.h`
outside the provided sources; it is ceiling division on `usec_t`
(64-bit unsigned), the addition wrapping mod 2^64. -/
def udev_warn_timeout (timeout_usec : ℕ) : ℕ :=
  ((timeout_usec + 3 - 1) % 2 ^ 64) / 3

/-- The two absolute deadlines armed by `worker_attach_event`
(udevd.c:269-277) relative to `now`: the warning timer at
`now + udev_warn_timeout(event_timeout)` and the kill timer at
`now + event_timeout` (usec_t additions wrap mod 2^64). -/
def worker_attach_event_timers (now event_timeout : ℕ) : ℕ × ℕ :=
  ((now + udev_warn_timeout event_timeout) % 2 ^ 64,
   (now + event_timeout) % 2 ^ 64)

/-- One worker's lifecycle as mutated by the supervisor loop:
  * `attach`: `worker_attach_event` (udevd.c:254-267; asserts
    `!worker->event`) sets WORKER_RUNNING and attaches the event.
  * `complete`: `on_worker` (udevd.c:884-888) on the worker's completion
    message: state becomes IDLE unless already KILLED, and
    `event_free(worker->event)` detaches the event.
  * `timeoutKill`: `on_event_timeout`, fired only while an event (with its
    timer) is attached.
  * `softKill`: `manager_kill_workers` (udevd.c:613-626) SIGTERMs every
    non-KILLED worker and marks it KILLED, leaving the event attached.
  * `dispatchKill`: `event_run` (udevd.c:547-552) SIGKILLs an IDLE worker
    that did not accept a message and marks it KILLED. -/
inductive WStep : WorkerRec → WorkerRec → Prop where
  | attach (w : WorkerRec) (eid : ℕ) :
      w.event = none →
      WStep w ⟨.running, some eid⟩
  | complete (w : WorkerRec) :
      WStep w ⟨if w.wstate = .killed then .killed else .idle, none⟩
  | timeoutKill (w : WorkerRec) :
      w.event.isSome →
      WStep w (on_event_timeout w).1
  | softKill (w : WorkerRec) :
      w.wstate ≠ .killed →
      WStep w ⟨.killed, w.event⟩
  | dispatchKill (w : WorkerRec) :
      w.wstate = .idle →
      WStep w ⟨.killed, w.event⟩

/-- Worker states reachable from a fresh spawn (`worker_spawn` parent path:
`worker_new` + `worker_attach_event`). -/
inductive WReach : WorkerRec → Prop where
  | spawn (eid : ℕ) : WReach ⟨.running, some eid⟩
  | step {w w' : WorkerRec} : WReach w → WStep w w' → WReach w'

/-! ## Control channel: the set-env branch of on_ctrl_msg -/

/-- `strchr(str, '=')` splitting: the key before the first '=' and the
value after it; `none` when the string has no '='. -/
def strchrSplit : List Char → Option (List Char × List Char)
  | [] => none
  | c :: rest =>
    if c = '=' then some ([], rest)
    else (strchrSplit rest).map (fun p => (c :: p.1, p.2))

/-- The `manager->properties` hashmap as an association list; a `none`
value models a key stored with a NULL value. -/
def Props := List (List Char × Option (List Char))

/-- The set-env branch of `on_ctrl_msg` (udevd.c:959-1011), as written in
the source: no '=' → "Invalid key format" error, map untouched, workers
kept; otherwise the key is first removed (`hashmap_remove2`), then — with
`eq` pointing at the value — `if (!isempty(eq))` the code logs
"unset '%s'" and stores a NULL value (`hashmap_put(properties, key,
NULL)`), `else` it logs "set '%s=%s'" and stores the duplicated (empty)
value; in both cases `manager_kill_workers` soft-terminates all workers
(the returned flag). -/
def on_ctrl_msg_set_env (props : List (List Char × Option (List Char)))
    (str : List Char) : List (List Char × Option (List Char)) × Bool :=
  match strchrSplit str with
  | none => (props, false)
  | some (key, val) =>
    let removed := props.filter (fun p => p.1 ≠ key)
    if ¬val.isEmpty then ((key, none) :: removed, true)
    else ((key, some val) :: removed, true)

/-! ## children_max default (main, udevd.c:1686-1698) -/

/-- The fallback computation of `arg_children_max` in `main`
(udevd.c:1686-1698), run only when `arg_children_max == 0`: start from 8;
when `sched_getaffinity` succeeds add `CPU_COUNT * 8` (unsigned 32-bit
arithmetic); let `mem_limit = physical_memory() / (128·1024·1024)`; then
`arg_children_max = MAX(10U, MIN(arg_children_max, mem_limit))`. -/
def children_max_default (affinityOk : Bool) (ncpu physicalMemory : ℕ) : ℕ :=
  let base := if affinityOk then (8 + ncpu * 8) % 2 ^ 32 else 8
  let memLimit := physicalMemory / (128 * 1024 * 1024)
  max 10 (min base memLimit)

/-- The default claimed by the spec, written from the spec's words:
`min(max(10, 8 + 8·nCPUs), physical_memory_bytes / (128·2^20))`.  Used
only to compare against `children_max_default` as embedded from the
source. -/
def spec_children_max (ncpu physicalMemory : ℕ) : ℕ :=
  min (max 10 (8 + 8 * ncpu)) (physicalMemory / (128 * 2 ^ 20))

/-! ## Reaping (on_sigchld, udevd.c:1218-1278) -/

/-- The `waitpid` statuses distinguished by `on_sigchld`
(udevd.c:1239-1253). -/
inductive WaitStatus where
  | exited (code : ℕ)
  | signaled (sig : ℕ)
  | stopped
  | continued
deriving DecidableEq

/-- The actions `on_sigchld` performs for one reaped worker. -/
structure ReapResult where
  dbDeleted : Bool
  kernelRepublished : Bool
  workerFreed : Bool
deriving DecidableEq

/-- `WIFEXITED(status) && WEXITSTATUS(status) == 0`. -/
def isExitedZero : WaitStatus → Bool
  | .exited 0 => true
  | _ => false

/-- One iteration of the reap loop of `on_sigchld` for a tracked worker
(udevd.c:1239-1264): stopped/continued children are only logged
(`continue`); otherwise, when `(!WIFEXITED(status) || WEXITSTATUS(status)
!= 0) && worker->event`, the persisted device state is deleted
(`udev_device_delete_db`, `udev_device_tag_index`) and the pristine kernel
clone `dev_kernel` is re-published on the main monitor; and in every
non-stopped/continued case `worker_free(worker)` frees the worker together
with its attached event. -/
def on_sigchld_reap (status : WaitStatus) (hasEvent : Bool) : ReapResult :=
  match status with
  | .stopped => ⟨false, false, false⟩
  | .continued => ⟨false, false, false⟩
  | _ =>
    if ¬isExitedZero status ∧ hasEvent then ⟨true, true, true⟩
    else ⟨false, false, true⟩

/-! ## listen_fds (udevd.c:1310-1343) -/

/-- The socket kinds `listen_fds` distinguishes via `sd_is_socket`. -/
inductive FdKind where
  | localSeqpacket
  | netlinkRaw
  | unrecognized
deriving DecidableEq

/-- The descriptor loop of `listen_fds` (udevd.c:1321-1337), with fds
identified by position: a control socket when one was already taken, a
netlink socket when one was already taken, or any unrecognized descriptor
returns `-EINVAL` (-22); otherwise the positions are recorded. -/
def listen_fds_loop : List FdKind → ℕ → Option ℕ → Option ℕ →
    Int × Option ℕ × Option ℕ
  | [], _, ctrl, netlink => (0, ctrl, netlink)
  | .localSeqpacket :: rest, i, ctrl, netlink =>
    if ctrl.isSome then (-22, none, none)
    else listen_fds_loop rest (i + 1) (some i) netlink
  | .netlinkRaw :: rest, i, ctrl, netlink =>
    if netlink.isSome then (-22, none, none)
    else listen_fds_loop rest (i + 1) ctrl (some i)
  | .unrecognized :: _, _, _, _ => (-22, none, none)

/-- `listen_fds` (udevd.c:1310-1343) over the descriptors handed in by the
service manager: returns 0 with the (possibly absent, `-1` in C) control
and netlink positions, or a negative error.  (On the error paths the C
function leaves the out-parameters unwritten; they are meaningless and
modelled as `none`.) -/
def listen_fds (fds : List FdKind) : Int × Option ℕ × Option ℕ :=
  listen_fds_loop fds 0 none none

/-! ## event_run (udevd.c:533-566) -/

/-- Outcome of `event_run`. -/
inductive RunOutcome where
  | attached (idx : ℕ)
  | spawned
  | capReached
deriving DecidableEq

/-- The idle-worker scan of `event_run` (udevd.c:540-556): skip non-IDLE
workers; for an IDLE worker, a failed `udev_monitor_send_device` kills it
(SIGKILL, `state = WORKER_KILLED`, still in the map) and the scan
continues; a successful send attaches the event
(`worker_attach_event`: WORKER_RUNNING, event attached) and stops.
`sendOk i` tells whether the send to the worker at overall position `i`
succeeds.  Returns the attach position (if any) and the updated pool. -/
def event_run_scan (sendOk : ℕ → Bool) (eid : ℕ) :
    ℕ → List WorkerRec → Option ℕ × List WorkerRec
  | _, [] => (none, [])
  | i, w :: ws =>
    if w.wstate = .idle then
      if sendOk i then (some i, ⟨.running, some eid⟩ :: ws)
      else
        let r := event_run_scan sendOk eid (i + 1) ws
        (r.1, ⟨.killed, w.event⟩ :: r.2)
    else
      let r := event_run_scan sendOk eid (i + 1) ws
      (r.1, w :: r.2)

/-- `event_run` (udevd.c:533-566): try the idle workers first; if none
accepted the event, spawn a new worker only when
`hashmap_size(manager->workers) < arg_children_max` — the size counts
every worker in the map regardless of its state, KILLED-but-unreaped ones
included. -/
def event_run (workers : List WorkerRec) (sendOk : ℕ → Bool) (eid : ℕ)
    (children_max : ℕ) : RunOutcome × List WorkerRec :=
  match event_run_scan sendOk eid 0 workers with
  | (some i, ws) => (.attached i, ws)
  | (none, ws) =>
    if children_max ≤ ws.length then (.capReached, ws)
    else (.spawned, ws ++ [⟨.running, some eid⟩])

/-! ## Claims C5 and C7: worker lifecycle and per-event timers -/

/-- Claim C5 (amended).  In every reachable worker state, a RUNNING worker
has an attached event and an IDLE worker has none.  (The frozen claim's
other direction — that a KILLED worker never has an attached event — is
refuted by the counterexample below: the kill timer and soft-termination
leave the event attached until the reap.) -/
theorem claim_C5_worker_event_invariant (w : WorkerRec) (h : WReach w) :
    (w.wstate = WState.running → w.event.isSome) ∧
    (w.wstate = WState.idle → w.event = none) := by
  have hite : ∀ (c : Prop) [Decidable c],
      (if c then WState.killed else WState.idle) ≠ WState.running := by
    intro c hc
    by_cases h : c
    · rw [if_pos h]; exact fun he => nomatch he
    · rw [if_neg h]; exact fun he => nomatch he
  induction h with
  | spawn eid => exact ⟨fun _ => rfl, fun hc => nomatch hc⟩
  | step hw hstep ih =>
    cases hstep with
    | attach eid hnone => exact ⟨fun _ => rfl, fun hc => nomatch hc⟩
    | complete => exact ⟨fun hr => absurd hr (hite _), fun _ => rfl⟩
    | timeoutKill hsome => exact ⟨(fun hr => nomatch hr), (fun hi => nomatch hi)⟩
    | softKill hnk => exact ⟨(fun hr => nomatch hr), (fun hi => nomatch hi)⟩
    | dispatchKill hidle => exact ⟨(fun hr => nomatch hr), (fun hi => nomatch hi)⟩

/-- Witness for claim C5 at the freshly spawned worker. -/
theorem claim_C5_worker_event_invariant_witness :
    ((⟨WState.running, some 1⟩ : WorkerRec).wstate = WState.running →
      (⟨WState.running, some 1⟩ : WorkerRec).event.isSome) ∧
    ((⟨WState.running, some 1⟩ : WorkerRec).wstate = WState.idle →
      (⟨WState.running, some 1⟩ : WorkerRec).event = none) :=
  claim_C5_worker_event_invariant _ (WReach.spawn 1)

/-- Counterexample to claim C5 as frozen: after the per-event kill timer
fires (`on_event_timeout`), the worker is reachable in state KILLED with
its event still attached — so `state = RUNNING ⇔ event ≠ none` fails, and
a KILLED worker does have an attached event. -/
theorem claim_C5_counterexample :
    WReach ⟨WState.killed, some 1⟩ ∧
    (⟨WState.killed, some 1⟩ : WorkerRec).wstate ≠ WState.running ∧
    (⟨WState.killed, some 1⟩ : WorkerRec).event ≠ none :=
  ⟨WReach.step (WReach.spawn 1) (WStep.timeoutKill ⟨WState.running, some 1⟩ rfl),
   by decide, by decide⟩

/-- Claim C7 (amended).  For every `event_timeout` t (with `t + 2 < 2^64`
and no deadline wraparound), attaching an event arms the warning timer at
exactly `now + DIV_ROUND_UP(t,3)` — the ceiling `⌈t/3⌉`, characterized by
`t ≤ 3·w < t+3`, which equals `t/3` exactly when 3 divides t — and the
kill timer at exactly `now + t` (default t = 180 s); the warning handler
only logs and kills nothing; the kill handler reports SIGKILL and sets the
worker's state to KILLED without detaching the event. -/
theorem claim_C7_timer_deadlines (now t : ℕ) (w : WorkerRec)
    (h1 : t + 2 < 2 ^ 64) (h2 : now + t < 2 ^ 64) :
    (worker_attach_event_timers now t).2 = now + t ∧
    (worker_attach_event_timers now t).1 = now + (t + 2) / 3 ∧
    t ≤ 3 * ((t + 2) / 3) ∧ 3 * ((t + 2) / 3) < t + 3 ∧
    (t % 3 = 0 → (worker_attach_event_timers now t).1 = now + t / 3) ∧
    on_event_timeout_warning w = (w, false) ∧
    (on_event_timeout w).1.wstate = WState.killed ∧
    (on_event_timeout w).1.event = w.event ∧
    (on_event_timeout w).2 = true := by
  unfold worker_attach_event_timers udev_warn_timeout
  refine ⟨?_, ?_, by omega, by omega, ?_, rfl, rfl, rfl, rfl⟩
  · exact Nat.mod_eq_of_lt h2
  · have ha : t + 3 - 1 = t + 2 := by omega
    rw [ha, Nat.mod_eq_of_lt h1, Nat.mod_eq_of_lt (by omega)]
  · intro h3
    have ha : t + 3 - 1 = t + 2 := by omega
    rw [ha, Nat.mod_eq_of_lt h1, Nat.mod_eq_of_lt (by omega)]
    omega

/-- Witness for claim C7 at the default timeout (180 s in microseconds):
the warning timer fires at 60 s, the kill timer at 180 s. -/
theorem claim_C7_timer_deadlines_witness :
    (worker_attach_event_timers 1000 180000000).2 = 1000 + 180000000 ∧
    (worker_attach_event_timers 1000 180000000).1 = 1000 + (180000000 + 2) / 3 ∧
    180000000 ≤ 3 * ((180000000 + 2) / 3) ∧
    3 * ((180000000 + 2) / 3) < 180000000 + 3 ∧
    (180000000 % 3 = 0 →
      (worker_attach_event_timers 1000 180000000).1 = 1000 + 180000000 / 3) ∧
    on_event_timeout_warning ⟨WState.running, some 1⟩ = (⟨WState.running, some 1⟩, false) ∧
    (on_event_timeout ⟨WState.running, some 1⟩).1.wstate = WState.killed ∧
    (on_event_timeout ⟨WState.running, some 1⟩).1.event =
      (⟨WState.running, some 1⟩ : WorkerRec).event ∧
    (on_event_timeout ⟨WState.running, some 1⟩).2 = true :=
  claim_C7_timer_deadlines 1000 180000000 ⟨WState.running, some 1⟩
    (by norm_num) (by norm_num)

/-- Counterexample to claim C7 as frozen: with `event_timeout = 4` (µs),
the warning timer is armed at offset `DIV_ROUND_UP(4,3) = 2`, not at
`4/3`: the spec's "exactly event_timeout/3" fails whenever 3 does not
divide the timeout. -/
theorem claim_C7_counterexample :
    (worker_attach_event_timers 0 4).1 ≠ 4 / 3 := by decide

/-! ## Claim C3: the set-env control message -/

/-- Claim C3 (code bug).  Evaluating the embedded set-env branch at the
failing inputs: for `FOO=bar` (non-empty value) the code stores the key
with a NULL value — while its own log message in that branch says
"unset 'FOO'" — instead of inserting FOO↦bar; for `FOO=` (empty value) it
stores an empty-string value — logging "set 'FOO='" — instead of removing
the key; the `isempty(eq)` test is inverted with respect to both the spec
and the branch's own log messages.  Workers are soft-terminated in both
cases, and a string without '=' leaves the map untouched. -/
theorem claim_C3_set_env_inverted :
    on_ctrl_msg_set_env [] "FOO=bar".toList = ([("FOO".toList, none)], true) ∧
    on_ctrl_msg_set_env [] "FOO=".toList = ([("FOO".toList, some [])], true) ∧
    on_ctrl_msg_set_env [("K".toList, some "v".toList)] "nokey".toList =
      ([("K".toList, some "v".toList)], false) := by
  refine ⟨?_, ?_, ?_⟩ <;> rfl

/-! ## Claim C4: the children_max default -/

/-- Claim C4 (amended).  When children_max was not set by CLI, config or
kernel command line, the effective default equals
`max(10, min(8 + 8·nCPUs, physical_memory_bytes / (128·2^20)))` — the
clamping is MAX-of-MIN, so when the memory-derived limit is below 10 the
default is 10, not the memory limit.  (CPU_COUNT of a `cpu_set_t` is at
most CPU_SETSIZE = 1024, so the unsigned addition cannot wrap.) -/
theorem claim_C4_children_max_default (ncpu physicalMemory : ℕ)
    (hcpu : ncpu ≤ 1024) :
    children_max_default true ncpu physicalMemory =
      max 10 (min (8 + 8 * ncpu) (physicalMemory / (128 * 2 ^ 20))) := by
  show max 10 (min ((8 + ncpu * 8) % 2 ^ 32) (physicalMemory / (128 * 1024 * 1024))) =
    max 10 (min (8 + 8 * ncpu) (physicalMemory / (128 * 2 ^ 20)))
  norm_num
  omega

/-- Witness for claim C4 at 4 CPUs and 8 GiB of memory: the default is
min-clamped to 40. -/
theorem claim_C4_children_max_default_witness :
    children_max_default true 4 8589934592 =
      max 10 (min (8 + 8 * 4) (8589934592 / (128 * 2 ^ 20))) :=
  claim_C4_children_max_default 4 8589934592 (by norm_num)

/-- Counterexample to claim C4 as frozen: with 1 CPU and 5·2^27 bytes of
memory the memory-derived limit is 5, below 10; the code clamps the
default up to `MAX(10, ...) = 10`, while the spec's formula
`min(max(10, 16), 5)` yields 5. -/
theorem claim_C4_counterexample :
    children_max_default true 1 671088640 = 10 ∧
    spec_children_max 1 671088640 = 5 ∧
    children_max_default true 1 671088640 ≠ spec_children_max 1 671088640 := by
  refine ⟨by decide, by decide, by decide⟩

/-! ## Claim C6: reap-time failure handling -/

/-- Claim C6 (amended).  When a reaped child's status is neither
stopped nor continued: if it did not exit with status 0 (non-zero exit or
termination by signal) and the worker has an attached event, the persisted
device state is deleted, the pristine kernel clone is re-published, and
the worker with its event is freed; when the child exited with status 0,
the deletion and re-publication are skipped but the worker (with any
still-attached event) is still freed. -/
theorem claim_C6_reap_failure_actions (status : WaitStatus) (hasEvent : Bool)
    (hstop : status ≠ WaitStatus.stopped) (hcont : status ≠ WaitStatus.continued) :
    (isExitedZero status = false → hasEvent = true →
      on_sigchld_reap status hasEvent = ⟨true, true, true⟩) ∧
    (∀ c, on_sigchld_reap (WaitStatus.exited 0) c = ⟨false, false, true⟩) := by
  constructor
  · intro hfail hev
    cases status with
    | exited code =>
      subst hev
      rcases code with _ | c
      · exact absurd hfail (by decide)
      · rfl
    | signaled sig => subst hev; rfl
    | stopped => exact absurd rfl hstop
    | continued => exact absurd rfl hcont
  · intro c; cases c <;> rfl

/-- Witness for claim C6: a worker whose child was terminated by SIGKILL
while an event was attached gets the full failure treatment. -/
theorem claim_C6_reap_failure_actions_witness :
    (isExitedZero (WaitStatus.signaled 9) = false → true = true →
      on_sigchld_reap (WaitStatus.signaled 9) true = ⟨true, true, true⟩) ∧
    (∀ c, on_sigchld_reap (WaitStatus.exited 0) c = ⟨false, false, true⟩) :=
  claim_C6_reap_failure_actions (WaitStatus.signaled 9) true (by decide) (by decide)

/-- Counterexample to claim C6 as frozen: on a clean exit (status 0) with
an event still attached, "none of these failure actions" is not quite
right — `worker_free` still runs, freeing the worker together with the
attached event; only the state deletion and the re-publication are
skipped. -/
theorem claim_C6_counterexample :
    (on_sigchld_reap (WaitStatus.exited 0) true).workerFreed = true ∧
    (on_sigchld_reap (WaitStatus.exited 0) true).dbDeleted = false ∧
    (on_sigchld_reap (WaitStatus.exited 0) true).kernelRepublished = false := by
  refine ⟨rfl, rfl, rfl⟩

/-! ## Claims C9 and C10: fd takeover and the spawn cap -/

/-- Characterization of the `listen_fds` loop, generalized over the
already-taken slots. -/
lemma listen_fds_loop_spec (fds : List FdKind) : ∀ (i : ℕ) (c n : Option ℕ),
    ((listen_fds_loop fds i c n).1 = 0 ↔
      fds.count FdKind.localSeqpacket + (if c.isSome then 1 else 0) ≤ 1 ∧
      fds.count FdKind.netlinkRaw + (if n.isSome then 1 else 0) ≤ 1 ∧
      FdKind.unrecognized ∉ fds) ∧
    ((listen_fds_loop fds i c n).1 = 0 ∨ (listen_fds_loop fds i c n).1 = -22) := by
  induction fds with
  | nil =>
    intro i c n
    refine ⟨?_, Or.inl rfl⟩
    simp only [listen_fds_loop, List.count_nil, List.not_mem_nil]
    constructor
    · intro _
      refine ⟨?_, ?_, fun h => h⟩ <;> split_ifs <;> omega
    · intro _; trivial
  | cons k rest ih =>
    intro i c n
    have hmemls : (FdKind.unrecognized ∈ FdKind.localSeqpacket :: rest) ↔
        FdKind.unrecognized ∈ rest := by simp
    have hmemnr : (FdKind.unrecognized ∈ FdKind.netlinkRaw :: rest) ↔
        FdKind.unrecognized ∈ rest := by simp
    cases k with
    | localSeqpacket =>
      have hc1 : (FdKind.localSeqpacket :: rest).count FdKind.localSeqpacket =
          rest.count FdKind.localSeqpacket + 1 := List.count_cons_self _ _
      have hc2 : (FdKind.localSeqpacket :: rest).count FdKind.netlinkRaw =
          rest.count FdKind.netlinkRaw := List.count_cons_of_ne (by decide) _
      by_cases hc : c.isSome = true
      · have hred : listen_fds_loop (FdKind.localSeqpacket :: rest) i c n =
            (-22, none, none) := by
          simp [listen_fds_loop, hc]
        rw [hred]
        refine ⟨?_, Or.inr rfl⟩
        constructor
        · intro habs; exact absurd habs (by decide)
        · rintro ⟨h1, -, -⟩
          rw [hc1, if_pos hc] at h1
          omega
      · have hcn : c.isSome = false := by simpa using hc
        have hred : listen_fds_loop (FdKind.localSeqpacket :: rest) i c n =
            listen_fds_loop rest (i + 1) (some i) n := by
          simp [listen_fds_loop, hcn]
        rw [hred]
        refine ⟨?_, (ih (i + 1) (some i) n).2⟩
        rw [(ih (i + 1) (some i) n).1, hc1, hc2, hcn, hmemls]
        constructor
        · rintro ⟨h1, h2, h3⟩
          refine ⟨?_, h2, h3⟩
          simp only [Option.isSome_some, if_pos] at h1
          simp only [Bool.false_eq_true, if_false]
          omega
        · rintro ⟨h1, h2, h3⟩
          refine ⟨?_, h2, h3⟩
          simp only [Bool.false_eq_true, if_false] at h1
          simp only [Option.isSome_some, if_pos]
          omega
    | netlinkRaw =>
      have hc1 : (FdKind.netlinkRaw :: rest).count FdKind.netlinkRaw =
          rest.count FdKind.netlinkRaw + 1 := List.count_cons_self _ _
      have hc2 : (FdKind.netlinkRaw :: rest).count FdKind.localSeqpacket =
          rest.count FdKind.localSeqpacket := List.count_cons_of_ne (by decide) _
      by_cases hn : n.isSome = true
      · have hred : listen_fds_loop (FdKind.netlinkRaw :: rest) i c n =
            (-22, none, none) := by
          simp [listen_fds_loop, hn]
        rw [hred]
        refine ⟨?_, Or.inr rfl⟩
        constructor
        · intro habs; exact absurd habs (by decide)
        · rintro ⟨-, h1, -⟩
          rw [hc1, if_pos hn] at h1
          omega
      · have hnn : n.isSome = false := by simpa using hn
        have hred : listen_fds_loop (FdKind.netlinkRaw :: rest) i c n =
            listen_fds_loop rest (i + 1) c (some i) := by
          simp [listen_fds_loop, hnn]
        rw [hred]
        refine ⟨?_, (ih (i + 1) c (some i)).2⟩
        rw [(ih (i + 1) c (some i)).1, hc1, hc2, hnn, hmemnr]
        constructor
        · rintro ⟨h1, h2, h3⟩
          refine ⟨h1, ?_, h3⟩
          simp only [Option.isSome_some, if_pos] at h2
          simp only [Bool.false_eq_true, if_false]
          omega
        · rintro ⟨h1, h2, h3⟩
          refine ⟨h1, ?_, h3⟩
          simp only [Bool.false_eq_true, if_false] at h2
          simp only [Option.isSome_some, if_pos]
          omega
    | unrecognized =>
      have hred : listen_fds_loop (FdKind.unrecognized :: rest) i c n =
          (-22, none, none) := by
        simp [listen_fds_loop]
      rw [hred]
      refine ⟨?_, Or.inr rfl⟩
      constructor
      · intro habs; exact absurd habs (by decide)
      · rintro ⟨-, -, h3⟩
        exact absurd (List.mem_cons_self _ _) h3

/-- Claim C9 (amended).  Taking over the pre-opened descriptors succeeds
(returns 0) exactly when every descriptor is recognized and there is at
most one control (AF_LOCAL/SOCK_SEQPACKET) and at most one netlink
(AF_NETLINK/SOCK_RAW) socket; a duplicate of either kind or an
unrecognized descriptor is a fatal error (-EINVAL); but a missing
descriptor is not an error — the slot is simply returned empty and the
socket is created later.  The only return values are 0 and -EINVAL. -/
theorem claim_C9_listen_fds_takeover (fds : List FdKind) :
    ((listen_fds fds).1 = 0 ↔
      fds.count FdKind.localSeqpacket ≤ 1 ∧ fds.count FdKind.netlinkRaw ≤ 1 ∧
      FdKind.unrecognized ∉ fds) ∧
    ((listen_fds fds).1 = 0 ∨ (listen_fds fds).1 = -22) := by
  have h := listen_fds_loop_spec fds 0 none none
  rw [listen_fds]
  constructor
  · rw [h.1]
    constructor
    · rintro ⟨h1, h2, h3⟩
      exact ⟨by simpa using h1, by simpa using h2, h3⟩
    · rintro ⟨h1, h2, h3⟩
      exact ⟨by simpa using h1, by simpa using h2, h3⟩
  · exact h.2

/-- Counterexample to claim C9 as frozen: with no descriptors handed in at
all — so neither "exactly one" condition holds — `listen_fds` still
succeeds, returning 0 with both slots absent; a missing descriptor is not
a fatal init error. -/
theorem claim_C9_counterexample :
    listen_fds [] = (0, none, none) ∧ ¬(listen_fds []).1 < 0 := by
  exact ⟨rfl, by decide⟩

lemma event_run_scan_length (sendOk : ℕ → Bool) (eid : ℕ) :
    ∀ (i : ℕ) (ws : List WorkerRec),
      (event_run_scan sendOk eid i ws).2.length = ws.length := by
  intro i ws
  induction ws generalizing i with
  | nil => rfl
  | cons w rest ih =>
    by_cases hw : w.wstate = WState.idle
    · by_cases hs : sendOk i = true
      · simp [event_run_scan, hw, hs]
      · simp [event_run_scan, hw, hs, ih]
    · simp [event_run_scan, hw, ih]

lemma event_run_scan_all_killed (sendOk : ℕ → Bool) (eid : ℕ) :
    ∀ (i : ℕ) (ws : List WorkerRec), (∀ w ∈ ws, w.wstate = WState.killed) →
      event_run_scan sendOk eid i ws = (none, ws) := by
  intro i ws
  induction ws generalizing i with
  | nil => intro _; rfl
  | cons w rest ih =>
    intro hall
    have hw : w.wstate = WState.killed := hall w (List.mem_cons_self _ _)
    have hwn : ¬w.wstate = WState.idle := by rw [hw]; exact fun h => nomatch h
    have hr := ih (i + 1) (fun x hx => hall x (List.mem_cons_of_mem _ hx))
    simp [event_run_scan, hwn, hr]

/-- Claim C10 (confirmed).  The spawn cap of `event_run` counts every
worker in the pool regardless of state: whenever the number of workers in
the map — KILLED-but-unreaped ones included — is at least `children_max`,
`event_run` never spawns a new worker; and when the whole pool is KILLED
(so none of them can take the event), the event is simply left in the
queue (`capReached`), a dead worker blocking its own replacement. -/
theorem claim_C10_spawn_cap_counts_all_workers
    (workers : List WorkerRec) (sendOk : ℕ → Bool) (eid children_max : ℕ)
    (hfull : children_max ≤ workers.length) :
    (event_run workers sendOk eid children_max).1 ≠ RunOutcome.spawned ∧
    ((∀ w ∈ workers, w.wstate = WState.killed) →
      (event_run workers sendOk eid children_max).1 = RunOutcome.capReached) := by
  constructor
  · unfold event_run
    rcases hscan : event_run_scan sendOk eid 0 workers with ⟨os, ws⟩
    have hlen : ws.length = workers.length := by
      have h := event_run_scan_length sendOk eid 0 workers
      rw [hscan] at h
      exact h
    cases os with
    | some idx => exact fun h => nomatch h
    | none =>
      show (if children_max ≤ ws.length then (RunOutcome.capReached, ws)
          else (RunOutcome.spawned, ws ++ [(⟨WState.running, some eid⟩ : WorkerRec)])).1 ≠
        RunOutcome.spawned
      rw [if_pos (show children_max ≤ ws.length by omega)]
      exact fun h => nomatch h
  · intro hall
    unfold event_run
    rw [event_run_scan_all_killed sendOk eid 0 workers hall]
    show (if children_max ≤ workers.length then (RunOutcome.capReached, workers)
        else (RunOutcome.spawned, workers ++ [(⟨WState.running, some eid⟩ : WorkerRec)])).1 =
      RunOutcome.capReached
    rw [if_pos hfull]

/-- Witness for claim C10: a pool holding one killed-but-unreaped worker
with `children_max = 1` neither attaches nor spawns. -/
theorem claim_C10_spawn_cap_counts_all_workers_witness :
    (event_run [⟨WState.killed, none⟩] (fun _ => true) 7 1).1 ≠ RunOutcome.spawned ∧
    ((∀ w ∈ [(⟨WState.killed, none⟩ : WorkerRec)], w.wstate = WState.killed) →
      (event_run [⟨WState.killed, none⟩] (fun _ => true) 7 1).1 = RunOutcome.capReached) :=
  claim_C10_spawn_cap_counts_all_workers [⟨WState.killed, none⟩] (fun _ => true) 7 1
    (by decide)

end Udevd
